import Mathlib

/-!
Shallow embedding of the YOLO-detector repository's batch-generation and
decoding pipeline (src/yolo/batch_gen.py, src/yolo/frontend.py), together
with the geometry helpers the repository imports from `yolo.box` and the
collaborators it imports from `yolo.annotation`, `yolo.augment` and
`yolo.decoder` (those modules are not part of the source tree; their
definitions here are modelled from the specification and marked as such).

Numbers are embedded as rationals (`ℚ`); numpy tensors are embedded as
total functions from their index space to `ℚ`, preallocated-zero arrays
being the constant-zero function.  Index writes that numpy performs are
embedded as pointwise function updates at the written index; claims only
ever inspect in-range indices, where this agrees with numpy semantics.
-/

namespace YoloSpec

/-- Modelled from the spec: `BoundBox` from the missing module `yolo.box`
(§3): a box `(xmin, ymin, xmax, ymax)` in one coordinate system. -/
structure BoundBox where
  xmin : ℚ
  ymin : ℚ
  xmax : ℚ
  ymax : ℚ
deriving Repr, DecidableEq

/-- A box in centroid form `(cx, cy, w, h)` (§4.1). -/
structure CBox where
  cx : ℚ
  cy : ℚ
  w : ℚ
  h : ℚ
deriving Repr, DecidableEq

/-- Overlap length of the intervals `[a1, a2]` and `[b1, b2]`, clamped at 0. -/
def intervalOverlap (a1 a2 b1 b2 : ℚ) : ℚ := max 0 (min a2 b2 - max a1 b1)

/-- Area of a corner-form box. -/
def boxArea (b : BoundBox) : ℚ := (b.xmax - b.xmin) * (b.ymax - b.ymin)

/-- Modelled from the spec: `bbox_iou` from the missing module `yolo.box`
(§4.1): intersection area over union area of two axis-aligned boxes in a
shared coordinate system; 0 when the boxes do not overlap.  Division by
zero in `ℚ` yields 0, which only happens for degenerate unions. -/
def bbox_iou (a b : BoundBox) : ℚ :=
  intervalOverlap a.xmin a.xmax b.xmin b.xmax * intervalOverlap a.ymin a.ymax b.ymin b.ymax /
    (boxArea a + boxArea b -
      intervalOverlap a.xmin a.xmax b.xmin b.xmax * intervalOverlap a.ymin a.ymax b.ymin b.ymax)

/-- Modelled from the spec: `to_centroid` (§4.1) elementwise single-box
step, `(xmin,ymin,xmax,ymax) → (cx,cy,w,h)`. -/
def centroidOf (b : BoundBox) : CBox :=
  ⟨(b.xmin + b.xmax) / 2, (b.ymin + b.ymax) / 2, b.xmax - b.xmin, b.ymax - b.ymin⟩

/-- Modelled from the spec: `to_centroid` from the missing module `yolo.box`. -/
def to_centroid (bs : List BoundBox) : List CBox := bs.map centroidOf

/-- Modelled from the spec: `to_normalize` (§4.1) single-box step: scale a
centroid box from pixel space to grid-cell units by `grid_size/input_size`. -/
def normOf (input_size : ℚ) (grid_size : ℕ) (b : CBox) : CBox :=
  ⟨b.cx * grid_size / input_size, b.cy * grid_size / input_size,
   b.w * grid_size / input_size, b.h * grid_size / input_size⟩

/-- Modelled from the spec: `to_normalize` from the missing module `yolo.box`. -/
def to_normalize (bs : List CBox) (input_size : ℚ) (grid_size : ℕ) : List CBox :=
  bs.map (normOf input_size grid_size)

theorem intervalOverlap_nonneg (a1 a2 b1 b2 : ℚ) : 0 ≤ intervalOverlap a1 a2 b1 b2 :=
  le_max_left 0 _

/-- A clamped quantity `max 0 d` is positive only when `d` itself is. -/
theorem max_zero_pos {d : ℚ} (h : 0 < max 0 d) : 0 < d := by
  rcases le_or_lt d 0 with hd | hd
  · rw [max_eq_left hd] at h
    exact absurd h (lt_irrefl 0)
  · exact hd

/-- The modelled IoU is never negative: if the boxes do not overlap it is 0,
and otherwise both areas dominate the (positive) intersection, so the union
is positive. -/
theorem bbox_iou_nonneg (a b : BoundBox) : 0 ≤ bbox_iou a b := by
  unfold bbox_iou
  set iw := intervalOverlap a.xmin a.xmax b.xmin b.xmax with hiw
  set ih := intervalOverlap a.ymin a.ymax b.ymin b.ymax with hih
  have hiw0 : 0 ≤ iw := intervalOverlap_nonneg _ _ _ _
  have hih0 : 0 ≤ ih := intervalOverlap_nonneg _ _ _ _
  rcases eq_or_lt_of_le (mul_nonneg hiw0 hih0) with h0 | hpos
  · rw [← h0, zero_div]
  · have hiwpos : 0 < iw := by
      rcases mul_pos_iff.mp hpos with ⟨h1, _⟩ | ⟨h1, _⟩
      · exact h1
      · exact absurd h1 (not_lt.mpr hiw0)
    have hihpos : 0 < ih := by
      rcases mul_pos_iff.mp hpos with ⟨_, h2⟩ | ⟨_, h2⟩
      · exact h2
      · exact absurd h2 (not_lt.mpr hih0)
    have hdx : 0 < min a.xmax b.xmax - max a.xmin b.xmin := max_zero_pos hiwpos
    have hdy : 0 < min a.ymax b.ymax - max a.ymin b.ymin := max_zero_pos hihpos
    have hiwd : iw = min a.xmax b.xmax - max a.xmin b.xmin := max_eq_right hdx.le
    have hihd : ih = min a.ymax b.ymax - max a.ymin b.ymin := max_eq_right hdy.le
    have hwA : iw ≤ a.xmax - a.xmin := by
      have h1 := min_le_left a.xmax b.xmax
      have h2 := le_max_left a.xmin b.xmin
      rw [hiwd]; linarith
    have hhA : ih ≤ a.ymax - a.ymin := by
      have h1 := min_le_left a.ymax b.ymax
      have h2 := le_max_left a.ymin b.ymin
      rw [hihd]; linarith
    have hwB : iw ≤ b.xmax - b.xmin := by
      have h1 := min_le_right a.xmax b.xmax
      have h2 := le_max_right a.xmin b.xmin
      rw [hiwd]; linarith
    have hhB : ih ≤ b.ymax - b.ymin := by
      have h1 := min_le_right a.ymax b.ymax
      have h2 := le_max_right a.ymin b.ymin
      rw [hihd]; linarith
    have hA : iw * ih ≤ boxArea a := by
      unfold boxArea
      exact mul_le_mul hwA hhA hihpos.le (by linarith)
    have hB : iw * ih ≤ boxArea b := by
      unfold boxArea
      exact mul_le_mul hwB hhB hihpos.le (by linarith)
    have hunion : 0 < boxArea a + boxArea b - iw * ih := by linarith
    exact div_nonneg hpos.le hunion.le

/-! ## LabelBatchGenerator (src/yolo/batch_gen.py, lines 28-104) -/

/-- `LabelBatchGenerator.__init__` state (src/yolo/batch_gen.py:30-36):
`anchors` already converted to anchor `BoundBox`es by `_create_anchor_boxes`. -/
structure LabelBatchGenerator where
  input_size : ℚ
  grid_size : ℕ
  nb_box : ℕ
  n_classes : ℕ
  max_box_per_image : ℕ
  anchors : List BoundBox
deriving Repr, DecidableEq

/-- `LabelBatchGenerator._create_anchor_boxes` (src/yolo/batch_gen.py:38-41):
pair up the flat anchor list into `BoundBox(0, 0, w, h)` anchors. -/
def _create_anchor_boxes (anchors : List ℚ) : List BoundBox :=
  (List.range (anchors.length / 2)).map fun i =>
    ⟨0, 0, anchors.getD (2 * i) 0, anchors.getD (2 * i + 1) 0⟩

/-- The `shifted_box = BoundBox(0, 0, center_w, center_h)` of
`_get_anchor_idx` (src/yolo/batch_gen.py:50-53). -/
def shiftedBox (b : CBox) : BoundBox := ⟨0, 0, b.w, b.h⟩

/-- IoU of the box (shifted to the origin) against the `i`-th anchor, the
quantity compared inside the loop of `_get_anchor_idx`
(src/yolo/batch_gen.py:55-57). -/
def anchorIou (lbg : LabelBatchGenerator) (box : CBox) (i : ℕ) : ℚ :=
  bbox_iou (shiftedBox box) (lbg.anchors.getD i ⟨0, 0, 0, 0⟩)

/-- The `for i in range(n)` loop of `_get_anchor_idx`
(src/yolo/batch_gen.py:47-61): running pair `(best_anchor, max_iou)`
starting at `(-1, -1)`, updated whenever `max_iou < iou` strictly. -/
def bestAnchorLoop (f : ℕ → ℚ) (n : ℕ) : ℤ × ℚ :=
  (List.range n).foldl (fun st i => if st.2 < f i then ((i : ℤ), f i) else st) (-1, -1)

/-- `LabelBatchGenerator._get_anchor_idx` (src/yolo/batch_gen.py:43-62). -/
def _get_anchor_idx (lbg : LabelBatchGenerator) (box : CBox) : ℤ :=
  (bestAnchorLoop (anchorIou lbg box) lbg.anchors.length).1

/-- numpy `astype(int)` on a rational: truncation toward zero, i.e. the
floor for nonnegative values and the negated floor of the negation
otherwise (src/yolo/batch_gen.py:66 `box.astype(int)`). -/
def truncQ (q : ℚ) : ℤ := if 0 ≤ q then ⌊q⌋ else -⌊-q⌋

/-- The channel content written by `y[grid_y, grid_x, best_anchor, 0:4] = box`
(src/yolo/batch_gen.py:67): channels 0..3 hold `cx, cy, w, h`. -/
def cboxChan (b : CBox) (c : ℕ) : ℚ :=
  if c = 0 then b.cx else if c = 1 then b.cy else if c = 2 then b.w
  else if c = 3 then b.h else 0

/-- The grid target tensor of shape
`(grid_size, grid_size, nb_box, 4+1+n_classes)`, embedded as a total
function `(grid_y, grid_x, anchor, channel) → ℚ`; the first three indices
are integers because `astype(int)` and `_get_anchor_idx` produce integers. -/
def GridY : Type := ℤ → ℤ → ℤ → ℕ → ℚ

/-- The truth-box buffer of shape `(1, 1, 1, max_box_per_image, 4)`,
embedded as `(slot, channel) → ℚ` with the three leading singleton axes
elided. -/
def TruthBuffer : Type := ℕ → ℕ → ℚ

/-- The all-zero grid target (`np.zeros`, src/yolo/batch_gen.py:81-84). -/
def zeroY : GridY := fun _ _ _ _ => 0

/-- The all-zero truth-box buffer (`np.zeros`, src/yolo/batch_gen.py:85-87). -/
def zeroB : TruthBuffer := fun _ _ => 0

/-- `LabelBatchGenerator._generate_y` (src/yolo/batch_gen.py:64-70): a fresh
zero tensor holding `[cx,cy,w,h]` in channels 0..3, 1 in channel 4 and 1 in
channel `5+obj_indx`, all at `(grid_y, grid_x, best_anchor)` where
`grid_x, grid_y = int(cx), int(cy)`. -/
def _generate_y (lbg : LabelBatchGenerator) (best_anchor : ℤ) (obj_indx : ℕ)
    (box : CBox) : GridY :=
  fun gy gx a c =>
    if gy = truncQ box.cy ∧ gx = truncQ box.cx ∧ a = best_anchor then
      if c < 4 then cboxChan box c
      else if c = 4 then 1
      else if c = 5 + obj_indx then 1 else 0
    else 0

/-- Elementwise tensor addition, the `y += self._generate_y(...)` of
src/yolo/batch_gen.py:97. -/
def addY (y1 y2 : GridY) : GridY := fun gy gx a c => y1 gy gx a c + y2 gy gx a c

/-- The write `b_[0, 0, 0, true_box_index] = norm_box`
(src/yolo/batch_gen.py:100): overwrite channels 0..3 of one slot. -/
def writeB (b : TruthBuffer) (idx : ℕ) (box : CBox) : TruthBuffer :=
  fun s c => if s = idx ∧ c < 4 then cboxChan box c else b s c

/-- The `for norm_box, label in zip(norm_boxes, labels)` loop of
`LabelBatchGenerator.generate` (src/yolo/batch_gen.py:93-103), with the
running `true_box_index` and the two accumulating tensors passed
explicitly. -/
def generateLoop (lbg : LabelBatchGenerator) :
    List (CBox × ℕ) → ℕ → GridY → TruthBuffer → GridY × TruthBuffer
  | [], _, y, b => (y, b)
  | (nb, lab) :: rest, idx, y, b =>
      generateLoop lbg rest ((idx + 1) % lbg.max_box_per_image)
        (addY y (_generate_y lbg (_get_anchor_idx lbg nb) lab nb))
        (writeB b idx nb)

/-- `LabelBatchGenerator.generate` (src/yolo/batch_gen.py:72-104). -/
def generate (lbg : LabelBatchGenerator) (boxes : List BoundBox)
    (labels : List ℕ) : GridY × TruthBuffer :=
  generateLoop lbg
    ((to_normalize (to_centroid boxes) lbg.input_size lbg.grid_size).zip labels)
    0 zeroY zeroB

/-- The grid-normalized centroid form of one input corner box, as computed
at src/yolo/batch_gen.py:89-90. -/
def normBoxOf (lbg : LabelBatchGenerator) (b : BoundBox) : CBox :=
  normOf lbg.input_size lbg.grid_size (centroidOf b)

/-! ## The anchor-selection loop -/

theorem bestAnchorLoop_zero (f : ℕ → ℚ) : bestAnchorLoop f 0 = (-1, -1) := rfl

theorem bestAnchorLoop_succ (f : ℕ → ℚ) (n : ℕ) :
    bestAnchorLoop f (n + 1) =
      if (bestAnchorLoop f n).2 < f n then ((n : ℤ), f n) else bestAnchorLoop f n := by
  unfold bestAnchorLoop
  rw [List.range_succ, List.foldl_append]
  rfl

/-- Invariant of the `_get_anchor_idx` loop: as soon as every candidate value
is nonnegative (so that the `-1` sentinel loses the first comparison), the
loop returns the index of the first maximal candidate, paired with its
value.  The strict update `max_iou < iou` means earlier indices beat equal
later ones. -/
theorem bestAnchorLoop_spec (f : ℕ → ℚ) (hf : ∀ i, 0 ≤ f i) :
    ∀ n : ℕ, 0 < n →
      ∃ k : ℕ, bestAnchorLoop f n = ((k : ℤ), f k) ∧ k < n ∧
        (∀ j, j < n → f j ≤ f k) ∧ (∀ j, j < k → f j < f k) := by
  intro n
  induction n with
  | zero => intro h; exact absurd h (lt_irrefl 0)
  | succ m ih =>
    intro _
    rcases Nat.eq_zero_or_pos m with hm | hm
    · subst hm
      refine ⟨0, ?_, Nat.zero_lt_one, ?_, ?_⟩
      · rw [bestAnchorLoop_succ, bestAnchorLoop_zero, if_pos]
        exact lt_of_lt_of_le (by norm_num) (hf 0)
      · intro j hj
        interval_cases j
        exact le_refl _
      · intro j hj
        exact absurd hj (Nat.not_lt_zero j)
    · obtain ⟨k, hk, hkm, hmax, hstrict⟩ := ih hm
      rw [bestAnchorLoop_succ, hk]
      by_cases hlt : f k < f m
      · rw [if_pos hlt]
        refine ⟨m, rfl, Nat.lt_succ_self m, ?_, ?_⟩
        · intro j hj
          rcases Nat.lt_succ_iff_lt_or_eq.mp hj with hj' | hj'
          · exact le_of_lt (lt_of_le_of_lt (hmax j hj') hlt)
          · subst hj'; exact le_refl _
        · intro j hj
          exact lt_of_le_of_lt (hmax j hj) hlt
      · rw [if_neg hlt]
        refine ⟨k, rfl, Nat.lt_succ_of_lt hkm, ?_, hstrict⟩
        intro j hj
        rcases Nat.lt_succ_iff_lt_or_eq.mp hj with hj' | hj'
        · exact hmax j hj'
        · subst hj'; exact not_lt.mp hlt

/-- Claim C1: for every box with positive width and height and every
non-empty anchor list, `LabelBatchGenerator._get_anchor_idx` returns an
index in `[0, nb_anchors)`; the size-only IoU of the chosen anchor with the
box is greater than or equal to the IoU of every other anchor, and every
anchor with a strictly smaller index has strictly smaller IoU (so ties are
broken by lowest index). -/
theorem get_anchor_idx_argmax (lbg : LabelBatchGenerator) (box : CBox)
    (hw : 0 < box.w) (hh : 0 < box.h) (hne : lbg.anchors ≠ []) :
    ∃ k : ℕ, _get_anchor_idx lbg box = (k : ℤ) ∧ k < lbg.anchors.length ∧
      (∀ j, j < lbg.anchors.length → anchorIou lbg box j ≤ anchorIou lbg box k) ∧
      (∀ j, j < k → anchorIou lbg box j < anchorIou lbg box k) := by
  have hf : ∀ i, 0 ≤ anchorIou lbg box i := fun i => bbox_iou_nonneg _ _
  have hn : 0 < lbg.anchors.length := List.length_pos.mpr hne
  obtain ⟨k, hk, hkn, hmax, hstrict⟩ := bestAnchorLoop_spec (anchorIou lbg box) hf _ hn
  refine ⟨k, ?_, hkn, hmax, hstrict⟩
  unfold _get_anchor_idx
  rw [hk]

/-- A two-anchor generator used to instantiate the theorems on concrete
inputs: anchors `1×1` and `2×2` on a `4×4` grid over `16×16` pixels. -/
def lbgEx : LabelBatchGenerator :=
  { input_size := 16, grid_size := 4, nb_box := 2, n_classes := 3,
    max_box_per_image := 10, anchors := _create_anchor_boxes [1, 1, 2, 2] }

theorem lbgEx_anchors : lbgEx.anchors = [⟨0, 0, 1, 1⟩, ⟨0, 0, 2, 2⟩] := by
  norm_num [lbgEx, _create_anchor_boxes, List.range_succ]

/-- The corner box `(0,0,4,4)` normalizes to `(0.5, 0.5, 1, 1)` in `lbgEx`
(scale `grid_size/input_size = 1/4`). -/
theorem lbgEx_nbox4 : normBoxOf lbgEx ⟨0, 0, 4, 4⟩ = ⟨1/2, 1/2, 1, 1⟩ := by
  norm_num [normBoxOf, normOf, centroidOf, lbgEx]

theorem truncQ_half : truncQ (1/2 : ℚ) = 0 := by norm_num [truncQ]

theorem lbgEx_iou0 : anchorIou lbgEx ⟨1/2, 1/2, 1, 1⟩ 0 = 1 := by
  rw [anchorIou, lbgEx_anchors]
  norm_num [bbox_iou, intervalOverlap, boxArea, shiftedBox, List.getD]

theorem lbgEx_iou1 : anchorIou lbgEx ⟨1/2, 1/2, 1, 1⟩ 1 = 1/4 := by
  rw [anchorIou, lbgEx_anchors]
  norm_num [bbox_iou, intervalOverlap, boxArea, shiftedBox, List.getD]

/-- In `lbgEx` the unit box prefers the `1×1` anchor (index 0). -/
theorem lbgEx_best : _get_anchor_idx lbgEx ⟨1/2, 1/2, 1, 1⟩ = 0 := by
  have hlen : lbgEx.anchors.length = 2 := by rw [lbgEx_anchors]; rfl
  unfold _get_anchor_idx
  rw [hlen, bestAnchorLoop_succ, bestAnchorLoop_succ, bestAnchorLoop_zero,
    lbgEx_iou0, lbgEx_iou1]
  norm_num

/-- Witness for C1 at a concrete input: the box `(0.5, 0.5, 1, 1)` against
the two anchors of `lbgEx`. -/
theorem get_anchor_idx_argmax_witness :
    (0 : ℚ) < (1 : ℚ) ∧ lbgEx.anchors ≠ [] ∧
      (∃ k : ℕ, _get_anchor_idx lbgEx ⟨1/2, 1/2, 1, 1⟩ = (k : ℤ) ∧
        k < lbgEx.anchors.length ∧
        (∀ j, j < lbgEx.anchors.length →
          anchorIou lbgEx ⟨1/2, 1/2, 1, 1⟩ j ≤ anchorIou lbgEx ⟨1/2, 1/2, 1, 1⟩ k) ∧
        (∀ j, j < k →
          anchorIou lbgEx ⟨1/2, 1/2, 1, 1⟩ j < anchorIou lbgEx ⟨1/2, 1/2, 1, 1⟩ k)) :=
  ⟨by norm_num, by decide,
   get_anchor_idx_argmax lbgEx ⟨1/2, 1/2, 1, 1⟩ (by norm_num) (by norm_num) (by decide)⟩

/-! ## Accumulation in `generate` (claims C2, C3) -/

/-- The grid-target component of the `generate` loop is the pointwise sum of
the starting tensor and every box's `_generate_y` contribution: the loop
body is `y += self._generate_y(...)` (src/yolo/batch_gen.py:97). -/
theorem generateLoop_fst (lbg : LabelBatchGenerator) (l : List (CBox × ℕ)) :
    ∀ (idx : ℕ) (y : GridY) (b : TruthBuffer) (gy gx a : ℤ) (c : ℕ),
      (generateLoop lbg l idx y b).1 gy gx a c =
        y gy gx a c +
          (l.map fun p => _generate_y lbg (_get_anchor_idx lbg p.1) p.2 p.1 gy gx a c).sum := by
  induction l with
  | nil =>
    intro idx y b gy gx a c
    simp [generateLoop]
  | cons hd tl ih =>
    intro idx y b gy gx a c
    obtain ⟨nb, lab⟩ := hd
    simp only [generateLoop, ih, addY, List.map_cons, List.sum_cons]
    ring

/-- The objectness channel of one box's contribution is the indicator of its
own `(grid_y, grid_x, best_anchor)` slot. -/
theorem _generate_y_at4 (lbg : LabelBatchGenerator) (ba : ℤ) (lab : ℕ) (nb : CBox)
    (gy gx a : ℤ) :
    _generate_y lbg ba lab nb gy gx a 4 =
      if gy = truncQ nb.cy ∧ gx = truncQ nb.cx ∧ a = ba then 1 else 0 := by
  unfold _generate_y
  by_cases h : gy = truncQ nb.cy ∧ gx = truncQ nb.cx ∧ a = ba
  · rw [if_pos h, if_pos h]
    norm_num
  · rw [if_neg h, if_neg h]

/-- The normalized boxes computed by `generate` for a two-box input. -/
theorem to_normalize_pair (lbg : LabelBatchGenerator) (b1 b2 : BoundBox) :
    to_normalize (to_centroid [b1, b2]) lbg.input_size lbg.grid_size =
      [normBoxOf lbg b1, normBoxOf lbg b2] := rfl

/-- Claim C2: when two ground-truth boxes of the same image map to the same
grid cell `(gy, gx)` and the same anchor index `a`, every channel of that
cell-anchor slot of the grid target holds the elementwise sum of the two
boxes' per-slot values (accumulation, not overwrite); in particular the
objectness channel holds `2`. -/
theorem generate_accumulates (lbg : LabelBatchGenerator) (b1 b2 : BoundBox)
    (l1 l2 : ℕ) (gy gx a : ℤ)
    (h1y : truncQ (normBoxOf lbg b1).cy = gy) (h1x : truncQ (normBoxOf lbg b1).cx = gx)
    (h1a : _get_anchor_idx lbg (normBoxOf lbg b1) = a)
    (h2y : truncQ (normBoxOf lbg b2).cy = gy) (h2x : truncQ (normBoxOf lbg b2).cx = gx)
    (h2a : _get_anchor_idx lbg (normBoxOf lbg b2) = a) :
    (∀ c : ℕ, (generate lbg [b1, b2] [l1, l2]).1 gy gx a c =
        _generate_y lbg a l1 (normBoxOf lbg b1) gy gx a c +
        _generate_y lbg a l2 (normBoxOf lbg b2) gy gx a c) ∧
      (generate lbg [b1, b2] [l1, l2]).1 gy gx a 4 = 2 := by
  have hsum : ∀ c : ℕ, (generate lbg [b1, b2] [l1, l2]).1 gy gx a c =
      _generate_y lbg a l1 (normBoxOf lbg b1) gy gx a c +
      _generate_y lbg a l2 (normBoxOf lbg b2) gy gx a c := by
    intro c
    unfold generate
    rw [to_normalize_pair]
    rw [generateLoop_fst]
    simp only [List.zip, List.zipWith, List.map_cons, List.map_nil, List.sum_cons,
      List.sum_nil, h1a, h2a]
    show (0 : ℚ) + _ = _
    ring
  refine ⟨hsum, ?_⟩
  rw [hsum 4, _generate_y_at4, _generate_y_at4,
    if_pos ⟨h1y.symm, h1x.symm, rfl⟩, if_pos ⟨h2y.symm, h2x.symm, rfl⟩]
  norm_num

/-- Witness for C2: two copies of the corner box `(0,0,4,4)` in `lbgEx`
both normalize to `(0.5, 0.5, 1, 1)`, land in cell `(0,0)` with best anchor
`0`, and their slot values are summed. -/
theorem generate_accumulates_witness :
    truncQ (normBoxOf lbgEx ⟨0, 0, 4, 4⟩).cy = 0 ∧
      _get_anchor_idx lbgEx (normBoxOf lbgEx ⟨0, 0, 4, 4⟩) = 0 ∧
      ((∀ c : ℕ, (generate lbgEx [⟨0, 0, 4, 4⟩, ⟨0, 0, 4, 4⟩] [1, 2]).1 0 0 0 c =
          _generate_y lbgEx 0 1 (normBoxOf lbgEx ⟨0, 0, 4, 4⟩) 0 0 0 c +
          _generate_y lbgEx 0 2 (normBoxOf lbgEx ⟨0, 0, 4, 4⟩) 0 0 0 c) ∧
        (generate lbgEx [⟨0, 0, 4, 4⟩, ⟨0, 0, 4, 4⟩] [1, 2]).1 0 0 0 4 = 2) :=
  ⟨by rw [lbgEx_nbox4]; exact truncQ_half, by rw [lbgEx_nbox4]; exact lbgEx_best,
   generate_accumulates lbgEx ⟨0, 0, 4, 4⟩ ⟨0, 0, 4, 4⟩ 1 2 0 0 0
     (by rw [lbgEx_nbox4]; exact truncQ_half) (by rw [lbgEx_nbox4]; exact truncQ_half)
     (by rw [lbgEx_nbox4]; exact lbgEx_best)
     (by rw [lbgEx_nbox4]; exact truncQ_half) (by rw [lbgEx_nbox4]; exact truncQ_half)
     (by rw [lbgEx_nbox4]; exact lbgEx_best)⟩

/-- Claim C3, counterexample: two identical boxes hashing to cell `(0,0)`
and anchor `0` leave objectness `2` in the slot, not the later box's
objectness `1`, so the slot does not hold the values of the later box only
(last-writer-wins fails; the values are accumulated). -/
theorem last_writer_wins_counterexample :
    (generate lbgEx [⟨0, 0, 4, 4⟩, ⟨0, 0, 4, 4⟩] [0, 0]).1 0 0 0 4 = 2 ∧
      (generate lbgEx [⟨0, 0, 4, 4⟩, ⟨0, 0, 4, 4⟩] [0, 0]).1 0 0 0 4 ≠ 1 := by
  have hval : (generate lbgEx [⟨0, 0, 4, 4⟩, ⟨0, 0, 4, 4⟩] [0, 0]).1 0 0 0 4 = 2 := by
    unfold generate
    rw [to_normalize_pair, lbgEx_nbox4, generateLoop_fst]
    simp only [List.zip_cons_cons, List.zip_nil_right, List.map_cons, List.map_nil,
      List.sum_cons, List.sum_nil, lbgEx_best]
    rw [_generate_y_at4, if_pos ⟨truncQ_half.symm, truncQ_half.symm, rfl⟩]
    norm_num [zeroY]
  exact ⟨hval, by rw [hval]; norm_num⟩

/-- Claim C3 (amended): each ground-truth box marks exactly one
`(cell, anchor)` slot, so with two boxes mapping to the one slot
`(gy, gx, a)` no other slot has nonzero objectness; but the colliding slot
accumulates both boxes' objectness values (`1 + 1`), instead of holding the
later box's values only. -/
theorem generate_collision_slot (lbg : LabelBatchGenerator) (b1 b2 : BoundBox)
    (l1 l2 : ℕ) (gy gx a : ℤ)
    (h1y : truncQ (normBoxOf lbg b1).cy = gy) (h1x : truncQ (normBoxOf lbg b1).cx = gx)
    (h1a : _get_anchor_idx lbg (normBoxOf lbg b1) = a)
    (h2y : truncQ (normBoxOf lbg b2).cy = gy) (h2x : truncQ (normBoxOf lbg b2).cx = gx)
    (h2a : _get_anchor_idx lbg (normBoxOf lbg b2) = a) :
    (∀ gy' gx' a' : ℤ, (generate lbg [b1, b2] [l1, l2]).1 gy' gx' a' 4 ≠ 0 →
        gy' = gy ∧ gx' = gx ∧ a' = a) ∧
      (generate lbg [b1, b2] [l1, l2]).1 gy gx a 4 = 1 + 1 := by
  have hval : ∀ gy' gx' a' : ℤ, (generate lbg [b1, b2] [l1, l2]).1 gy' gx' a' 4 =
      (if gy' = gy ∧ gx' = gx ∧ a' = a then (1 : ℚ) else 0) +
      (if gy' = gy ∧ gx' = gx ∧ a' = a then (1 : ℚ) else 0) := by
    intro gy' gx' a'
    unfold generate
    rw [to_normalize_pair, generateLoop_fst]
    simp only [List.zip_cons_cons, List.zip_nil_right, List.map_cons, List.map_nil,
      List.sum_cons, List.sum_nil, h1a, h2a]
    rw [_generate_y_at4, _generate_y_at4, h1y, h1x, h2y, h2x]
    show (0 : ℚ) + _ = _
    ring
  constructor
  · intro gy' gx' a' hne
    by_cases hc : gy' = gy ∧ gx' = gx ∧ a' = a
    · exact hc
    · exfalso
      apply hne
      rw [hval gy' gx' a', if_neg hc]
      norm_num
  · rw [hval gy gx a, if_pos ⟨rfl, rfl, rfl⟩]

/-- Witness for the amended C3 at the concrete colliding pair of
`last_writer_wins_counterexample`. -/
theorem generate_collision_slot_witness :
    truncQ (normBoxOf lbgEx ⟨0, 0, 4, 4⟩).cx = 0 ∧
      ((∀ gy' gx' a' : ℤ, (generate lbgEx [⟨0, 0, 4, 4⟩, ⟨0, 0, 4, 4⟩] [0, 0]).1 gy' gx' a' 4 ≠ 0 →
          gy' = 0 ∧ gx' = 0 ∧ a' = 0) ∧
        (generate lbgEx [⟨0, 0, 4, 4⟩, ⟨0, 0, 4, 4⟩] [0, 0]).1 0 0 0 4 = 1 + 1) :=
  ⟨by rw [lbgEx_nbox4]; exact truncQ_half,
   generate_collision_slot lbgEx ⟨0, 0, 4, 4⟩ ⟨0, 0, 4, 4⟩ 0 0 0 0 0
     (by rw [lbgEx_nbox4]; exact truncQ_half) (by rw [lbgEx_nbox4]; exact truncQ_half)
     (by rw [lbgEx_nbox4]; exact lbgEx_best)
     (by rw [lbgEx_nbox4]; exact truncQ_half) (by rw [lbgEx_nbox4]; exact truncQ_half)
     (by rw [lbgEx_nbox4]; exact lbgEx_best)⟩

/-! ## The truth-box buffer (claim C4) -/

/-- The buffer slot written at step `j` of the `generate` loop when the
running `true_box_index` currently holds `idx`: the index is used for the
write first, then incremented and reduced modulo `max_box_per_image`
(src/yolo/batch_gen.py:100-103). -/
def writeIdx (m : ℕ) : ℕ → ℕ → ℕ
  | idx, 0 => idx
  | idx, j + 1 => writeIdx m ((idx + 1) % m) j

theorem writeIdx_eq (m : ℕ) (hm : 0 < m) :
    ∀ (j idx : ℕ), idx < m → writeIdx m idx j = (idx + j) % m := by
  intro j
  induction j with
  | zero =>
    intro idx hidx
    simp [writeIdx, Nat.mod_eq_of_lt hidx]
  | succ n ih =>
    intro idx hidx
    have h1 : (idx + 1) % m < m := Nat.mod_lt _ hm
    show writeIdx m ((idx + 1) % m) n = _
    rw [ih _ h1, Nat.mod_add_mod]
    congr 1
    omega

/-- Buffer slots never written by the loop keep their previous content. -/
theorem generateLoop_snd_untouched (lbg : LabelBatchGenerator) (s c : ℕ) :
    ∀ (l : List (CBox × ℕ)) (idx : ℕ) (y : GridY) (b : TruthBuffer),
      (∀ j, j < l.length → writeIdx lbg.max_box_per_image idx j ≠ s) →
      (generateLoop lbg l idx y b).2 s c = b s c := by
  intro l
  induction l with
  | nil =>
    intro idx y b _
    rfl
  | cons hd tl ih =>
    intro idx y b hs
    obtain ⟨nb, lab⟩ := hd
    have hidx : idx ≠ s := by
      have h0 := hs 0 (Nat.succ_pos _)
      simpa [writeIdx] using h0
    simp only [generateLoop]
    rw [ih _ _ _ ?_]
    · simp only [writeB]
      rw [if_neg]
      intro hcon
      exact hidx hcon.1.symm
    · intro j hj
      have h1 := hs (j + 1) (Nat.succ_lt_succ hj)
      simpa [writeIdx] using h1

/-- The slot written at step `j` holds, at the end of the loop, the box
processed at step `j` — provided no later step writes the same slot. -/
theorem generateLoop_snd_get (lbg : LabelBatchGenerator) (c : ℕ) (hc : c < 4) :
    ∀ (l : List (CBox × ℕ)) (idx : ℕ) (y : GridY) (b : TruthBuffer) (j : ℕ)
      (hj : j < l.length),
      (∀ j', j < j' → j' < l.length →
        writeIdx lbg.max_box_per_image idx j' ≠ writeIdx lbg.max_box_per_image idx j) →
      (generateLoop lbg l idx y b).2 (writeIdx lbg.max_box_per_image idx j) c =
        cboxChan (l.get ⟨j, hj⟩).1 c := by
  intro l
  induction l with
  | nil =>
    intro idx y b j hj
    exact absurd hj (Nat.not_lt_zero j)
  | cons hd tl ih =>
    intro idx y b j hj hlast
    obtain ⟨nb, lab⟩ := hd
    cases j with
    | zero =>
      simp only [generateLoop, writeIdx, List.get]
      rw [generateLoop_snd_untouched lbg idx c tl _ _ _ ?_]
      · simp [writeB, hc]
      · intro j' hj'
        have h2 := hlast (j' + 1) (Nat.succ_pos _) (Nat.succ_lt_succ hj')
        simpa [writeIdx] using h2
    | succ n =>
      have hn : n < tl.length := Nat.lt_of_succ_lt_succ hj
      simp only [generateLoop, writeIdx, List.get]
      exact ih _ _ _ n hn fun j' h1 h2 => by
        have h3 := hlast (j' + 1) (Nat.succ_lt_succ h1) (Nat.succ_lt_succ h2)
        simpa [writeIdx] using h3

/-- The normalized-box list built at src/yolo/batch_gen.py:89-90 is the
elementwise `normBoxOf`. -/
theorem to_normalize_to_centroid (lbg : LabelBatchGenerator) (boxes : List BoundBox) :
    to_normalize (to_centroid boxes) lbg.input_size lbg.grid_size =
      boxes.map (normBoxOf lbg) := by
  rw [to_normalize, to_centroid, List.map_map]
  rfl

/-- Claim C4: the `i`-th processed box lands in truth-buffer slot
`i % max_box_per_image`; when the box count exceeds the capacity, later
boxes overwrite earlier slots (restarting at 0), so the slot of box `i`
still holds box `i` exactly when no later box reuses it, in particular
whenever `boxes.length ≤ i + max_box_per_image`.  The overflow is not an
error: `generate` is total. -/
theorem truth_box_buffer_cycles (lbg : LabelBatchGenerator) (boxes : List BoundBox)
    (labels : List ℕ) (hm : 0 < lbg.max_box_per_image)
    (hpar : labels.length = boxes.length) (i : ℕ) (hi : i < boxes.length)
    (hov : boxes.length ≤ i + lbg.max_box_per_image) (c : ℕ) (hc : c < 4) :
    (generate lbg boxes labels).2 (i % lbg.max_box_per_image) c =
      cboxChan (normBoxOf lbg (boxes.getD i ⟨0, 0, 0, 0⟩)) c := by
  have hmap : (boxes.map (normBoxOf lbg)).length = boxes.length := List.length_map _ _
  have hzlen : ((boxes.map (normBoxOf lbg)).zip labels).length = boxes.length := by
    rw [List.length_zip, hmap, hpar, Nat.min_self]
  have hiz : i < ((boxes.map (normBoxOf lbg)).zip labels).length := by rw [hzlen]; exact hi
  have hw0 : writeIdx lbg.max_box_per_image 0 i = i % lbg.max_box_per_image := by
    rw [writeIdx_eq _ hm i 0 hm, Nat.zero_add]
  have hmain := generateLoop_snd_get lbg c hc ((boxes.map (normBoxOf lbg)).zip labels)
    0 zeroY zeroB i hiz ?_
  · have hget : (((boxes.map (normBoxOf lbg)).zip labels).get ⟨i, hiz⟩).1 =
        normBoxOf lbg (boxes.getD i ⟨0, 0, 0, 0⟩) := by
      have h1 : i < (boxes.map (normBoxOf lbg)).length := by rw [hmap]; exact hi
      have h2 : ((boxes.map (normBoxOf lbg)).zip labels).get ⟨i, hiz⟩ =
          ((boxes.map (normBoxOf lbg)).get ⟨i, h1⟩, labels.get ⟨i, by rw [hpar]; exact hi⟩) := by
        apply List.get_zip
      rw [h2, List.get_map]
      congr 1
      rw [List.getD_eq_getElem boxes _ hi]
      rfl
    rw [hw0] at hmain
    rw [generate, to_normalize_to_centroid, hmain, hget]
  · intro j' h1 h2
    rw [writeIdx_eq _ hm j' 0 hm, writeIdx_eq _ hm i 0 hm, Nat.zero_add, Nat.zero_add]
    intro heq
    have hmod : i ≡ j' [MOD lbg.max_box_per_image] := heq.symm
    have hdvd : lbg.max_box_per_image ∣ j' - i :=
      (Nat.modEq_iff_dvd' (le_of_lt h1)).mp hmod
    have hle : lbg.max_box_per_image ≤ j' - i := Nat.le_of_dvd (by omega) hdvd
    rw [hzlen] at h2
    omega

/-- A capacity-1 variant of `lbgEx`, so that a two-box image overflows the
truth-box buffer and wraps to slot 0. -/
def lbgW : LabelBatchGenerator :=
  { input_size := 16, grid_size := 4, nb_box := 2, n_classes := 3,
    max_box_per_image := 1, anchors := _create_anchor_boxes [1, 1, 2, 2] }

/-- Witness for C4: with capacity 1, the second box (index 1) lands in slot
`1 % 1 = 0`, overwriting the first: overflow wraps and is not an error. -/
theorem truth_box_buffer_cycles_witness :
    0 < lbgW.max_box_per_image ∧
      ([0, 0] : List ℕ).length = ([⟨0, 0, 4, 4⟩, ⟨0, 0, 8, 8⟩] : List BoundBox).length ∧
      1 < ([⟨0, 0, 4, 4⟩, ⟨0, 0, 8, 8⟩] : List BoundBox).length ∧
      (generate lbgW [⟨0, 0, 4, 4⟩, ⟨0, 0, 8, 8⟩] [0, 0]).2 (1 % lbgW.max_box_per_image) 2 =
        cboxChan (normBoxOf lbgW
          (([⟨0, 0, 4, 4⟩, ⟨0, 0, 8, 8⟩] : List BoundBox).getD 1 ⟨0, 0, 0, 0⟩)) 2 :=
  ⟨by decide, by decide, by decide,
   truth_box_buffer_cycles lbgW [⟨0, 0, 4, 4⟩, ⟨0, 0, 8, 8⟩] [0, 0] (by decide)
     (by decide) 1 (by decide) (by decide) 2 (by decide)⟩

/-! ## Single-box grid target (claim C5) -/

/-- Truncation toward zero agrees with the floor on nonnegative rationals. -/
theorem truncQ_of_nonneg {q : ℚ} (h : 0 ≤ q) : truncQ q = ⌊q⌋ := if_pos h

/-- For a single box, `generate` produces exactly the one `_generate_y`
contribution added to the zero tensor. -/
theorem generate_single (lbg : LabelBatchGenerator) (box : BoundBox) (lab : ℕ) :
    (generate lbg [box] [lab]).1 =
      addY zeroY (_generate_y lbg (_get_anchor_idx lbg (normBoxOf lbg box)) lab
        (normBoxOf lbg box)) := rfl

/-- The one-hot class channel `5 + obj_indx` of one box's contribution is
the indicator of its own slot. -/
theorem _generate_y_atClass (lbg : LabelBatchGenerator) (ba : ℤ) (lab : ℕ) (nb : CBox)
    (gy gx a : ℤ) :
    _generate_y lbg ba lab nb gy gx a (5 + lab) =
      if gy = truncQ nb.cy ∧ gx = truncQ nb.cx ∧ a = ba then 1 else 0 := by
  unfold _generate_y
  by_cases h : gy = truncQ nb.cy ∧ gx = truncQ nb.cx ∧ a = ba
  · rw [if_pos h, if_pos h, if_neg (by omega), if_neg (by omega), if_pos rfl]
  · rw [if_neg h, if_neg h]

/-- Claim C5: for a single box whose grid-normalized centroid has
nonnegative coordinates, lands in cell `(gx, gy) = (⌊cx⌋, ⌊cy⌋)` of the
grid and has best anchor `a` and class label `lab`, the grid target has
exactly one nonzero objectness entry, at `[gy, gx, a, 4] = 1` (y index
first), and the one-hot class entry `[gy, gx, a, 5 + lab] = 1`. -/
theorem single_box_grid_target (lbg : LabelBatchGenerator) (box : BoundBox) (lab : ℕ)
    (gy gx a : ℕ)
    (hy0 : 0 ≤ (normBoxOf lbg box).cy) (hx0 : 0 ≤ (normBoxOf lbg box).cx)
    (hgy : ⌊(normBoxOf lbg box).cy⌋ = (gy : ℤ)) (hgx : ⌊(normBoxOf lbg box).cx⌋ = (gx : ℤ))
    (ha : _get_anchor_idx lbg (normBoxOf lbg box) = (a : ℤ))
    (hgys : gy < lbg.grid_size) (hgxs : gx < lbg.grid_size) (has : a < lbg.nb_box) :
    (∀ gy' gx' a' : ℕ, gy' < lbg.grid_size → gx' < lbg.grid_size → a' < lbg.nb_box →
        ((generate lbg [box] [lab]).1 gy' gx' a' 4 ≠ 0 ↔ gy' = gy ∧ gx' = gx ∧ a' = a)) ∧
      (generate lbg [box] [lab]).1 gy gx a 4 = 1 ∧
      (generate lbg [box] [lab]).1 gy gx a (5 + lab) = 1 := by
  have hty : truncQ (normBoxOf lbg box).cy = (gy : ℤ) := by
    rw [truncQ_of_nonneg hy0, hgy]
  have htx : truncQ (normBoxOf lbg box).cx = (gx : ℤ) := by
    rw [truncQ_of_nonneg hx0, hgx]
  have hval4 : ∀ gy' gx' a' : ℤ, (generate lbg [box] [lab]).1 gy' gx' a' 4 =
      if gy' = (gy : ℤ) ∧ gx' = (gx : ℤ) ∧ a' = (a : ℤ) then 1 else 0 := by
    intro gy' gx' a'
    rw [generate_single]
    show (0 : ℚ) + _ = _
    rw [zero_add, _generate_y_at4, hty, htx, ha]
  have hval5 : (generate lbg [box] [lab]).1 gy gx a (5 + lab) = 1 := by
    rw [generate_single]
    show (0 : ℚ) + _ = _
    rw [zero_add, _generate_y_atClass, hty, htx, ha, if_pos ⟨rfl, rfl, rfl⟩]
  refine ⟨?_, ?_, hval5⟩
  · intro gy' gx' a' _ _ _
    rw [hval4]
    constructor
    · intro hne
      by_cases hcond : (gy' : ℤ) = (gy : ℤ) ∧ (gx' : ℤ) = (gx : ℤ) ∧ (a' : ℤ) = (a : ℤ)
      · exact ⟨Nat.cast_inj.mp hcond.1, Nat.cast_inj.mp hcond.2.1, Nat.cast_inj.mp hcond.2.2⟩
      · rw [if_neg hcond] at hne
        exact absurd rfl hne
    · rintro ⟨rfl, rfl, rfl⟩
      rw [if_pos ⟨rfl, rfl, rfl⟩]
      norm_num
  · rw [hval4, if_pos ⟨rfl, rfl, rfl⟩]

/-- Witness for C5: the single box `(0,0,4,4)` with label 2 in `lbgEx`
lands in cell `(0,0)`, anchor 0. -/
theorem single_box_grid_target_witness :
    (0 : ℚ) ≤ (normBoxOf lbgEx ⟨0, 0, 4, 4⟩).cy ∧
      ⌊(normBoxOf lbgEx ⟨0, 0, 4, 4⟩).cx⌋ = ((0 : ℕ) : ℤ) ∧
      ((∀ gy' gx' a' : ℕ, gy' < lbgEx.grid_size → gx' < lbgEx.grid_size →
          a' < lbgEx.nb_box →
          ((generate lbgEx [⟨0, 0, 4, 4⟩] [2]).1 gy' gx' a' 4 ≠ 0 ↔
            gy' = 0 ∧ gx' = 0 ∧ a' = 0)) ∧
        (generate lbgEx [⟨0, 0, 4, 4⟩] [2]).1 0 0 0 4 = 1 ∧
        (generate lbgEx [⟨0, 0, 4, 4⟩] [2]).1 0 0 0 (5 + 2) = 1) :=
  ⟨by rw [lbgEx_nbox4]; norm_num, by rw [lbgEx_nbox4]; norm_num,
   single_box_grid_target lbgEx ⟨0, 0, 4, 4⟩ 2 0 0 0
     (by rw [lbgEx_nbox4]; norm_num) (by rw [lbgEx_nbox4]; norm_num)
     (by rw [lbgEx_nbox4]; norm_num) (by rw [lbgEx_nbox4]; norm_num)
     (by rw [lbgEx_nbox4]; exact lbgEx_best) (by decide) (by decide) (by decide)⟩

/-! ## Empty input (claim C6) -/

/-- Claim C6: with zero ground-truth boxes and an empty label list,
`generate` returns the all-zero grid target and the all-zero truth-box
buffer (the functional embedding of the zero tensors of shape
`(grid_size, grid_size, nb_box, 4+1+n_classes)` and
`(1, 1, 1, max_box_per_image, 4)`). -/
theorem generate_empty_is_zero (lbg : LabelBatchGenerator) :
    (generate lbg [] []).1 = zeroY ∧ (generate lbg [] []).2 = zeroB :=
  ⟨rfl, rfl⟩

/-! ## BatchGenerator (src/yolo/batch_gen.py, lines 108-188) -/

/-- Modelled from the spec: one image's annotation record from the missing
module `yolo.annotation` (§3, §6): filename, corner boxes, and integer
class codes. -/
structure AnnItem where
  fname : String
  boxes : List BoundBox
  code_labels : List ℕ
deriving Repr, DecidableEq

/-- Modelled from the spec: the annotation source collaborator from the
missing module `yolo.annotation` (§4.3, §6): `_components` is its list of
per-batch annotation groups (`BatchGenerator.__len__` counts these groups,
src/yolo/batch_gen.py:147-148); per-index access runs over the
concatenation of the groups. -/
structure Annotations where
  _components : List (List AnnItem)
deriving Repr, DecidableEq

/-- The flat per-image view of the annotation source, in group order. -/
def Annotations.items (anns : Annotations) : List AnnItem := anns._components.flatten

/-- Default record returned by out-of-range reads; `getItem` only reads
in-range indices (guarded), so the default is never observable. -/
def dfltAnnItem : AnnItem := ⟨"", [], []⟩

/-- An image tensor: shape `(rows, cols, chans)` plus pixel data. -/
structure Img where
  rows : ℕ
  cols : ℕ
  chans : ℕ
  data : ℕ → ℕ → ℕ → ℚ

/-- The shape triple of an image tensor. -/
def imgShape (im : Img) : ℕ × ℕ × ℕ := (im.rows, im.cols, im.chans)

/-- A fresh zero image of shape `(sz, sz, 3)` (one slot of the preallocated
`x_batch`, src/yolo/batch_gen.py:159). -/
def zeroImg (sz : ℕ) : Img := ⟨sz, sz, 3, fun _ _ _ => 0⟩

/-- The slice assignment `x_batch[instance_count] = self.norm(img)`
(src/yolo/batch_gen.py:177): the written slot carries the preallocated
buffer's `(sz, sz, 3)` shape and the value's data inside it. -/
def assignSlot (sz : ℕ) (v : Img) : Img :=
  ⟨sz, sz, 3, fun r c ch => if r < sz ∧ c < sz ∧ ch < 3 then v.data r c ch else 0⟩

/-- `GeneratorConfig` (src/yolo/batch_gen.py:9-25). -/
structure GeneratorConfig where
  input_size : ℕ
  grid_size : ℕ
  labels : List String
  batch_size : ℕ
  max_box_per_image : ℕ
  anchors : List ℚ
deriving Repr, DecidableEq

/-- `self.nb_box = int(len(anchors)/2)` (src/yolo/batch_gen.py:20). -/
def GeneratorConfig.nb_box (c : GeneratorConfig) : ℕ := c.anchors.length / 2

/-- `self.n_classes = len(self.labels)` (src/yolo/batch_gen.py:25). -/
def GeneratorConfig.n_classes (c : GeneratorConfig) : ℕ := c.labels.length

/-- `BatchGenerator.__init__` state (src/yolo/batch_gen.py:109-145).  The
`norm` field is the resolved normalization function (the identity when the
caller passes none, src/yolo/batch_gen.py:141-144); `imread` is the
image loader/augmenter collaborator `augment.imread`
(src/yolo/batch_gen.py:170-174), modelled from the spec (§6) since
`yolo.augment` is missing from src/: given filename, boxes, target sizes
and the jitter flag it returns an image and transformed boxes. -/
structure BatchGenerator where
  annotations : Annotations
  config : GeneratorConfig
  jitter : Bool
  norm : Img → Img
  imread : String → List BoundBox → ℕ → ℕ → Bool → Img × List BoundBox
  counter : ℕ

/-- `self.batch_size = config.batch_size` (src/yolo/batch_gen.py:129). -/
def BatchGenerator.batch_size (bg : BatchGenerator) : ℕ := bg.config.batch_size

/-- `self._label_generator = LabelBatchGenerator(...)`
(src/yolo/batch_gen.py:132-137). -/
def BatchGenerator.label_generator (bg : BatchGenerator) : LabelBatchGenerator :=
  { input_size := (bg.config.input_size : ℚ), grid_size := bg.config.grid_size,
    nb_box := bg.config.nb_box, n_classes := bg.config.n_classes,
    max_box_per_image := bg.config.max_box_per_image,
    anchors := _create_anchor_boxes bg.config.anchors }

/-- `BatchGenerator.__len__` (src/yolo/batch_gen.py:147-148):
`len(self.annotations._components)`. -/
def BatchGenerator.len (bg : BatchGenerator) : ℕ := bg.annotations._components.length

/-- Steps 1-4 of the `__getitem__` body for one slot
(src/yolo/batch_gen.py:164-180): read the image through the collaborator,
normalize it, and run the label generator on the transformed boxes and the
item's class codes. -/
def BatchGenerator.processOne (bg : BatchGenerator) (item : AnnItem) :
    Img × (GridY × TruthBuffer) :=
  let pr := bg.imread item.fname item.boxes bg.config.input_size bg.config.input_size
    bg.jitter
  (bg.norm pr.1, generate bg.label_generator pr.2 item.code_labels)

/-- The `([x_batch, b_batch], y_batch)` triple returned by `__getitem__`
(src/yolo/batch_gen.py:159-184), each batch axis embedded as a function
from the slot index. -/
structure BatchOut where
  x_batch : ℕ → Img
  b_batch : ℕ → TruthBuffer
  y_batch : ℕ → GridY

/-- `BatchGenerator.__getitem__` (src/yolo/batch_gen.py:150-184).  The
slot `i` of batch `idx` reads the annotation at global index
`batch_size * idx + i` (src/yolo/batch_gen.py:165-167).  Out-of-range
annotation access or a norm/imread result whose shape does not match the
preallocated `(input_size, input_size, 3)` slot raises in the original
(IndexError / broadcast error), embedded as `none`; the successful branch
also returns the post-call generator state, whose `counter` was
incremented (src/yolo/batch_gen.py:183). -/
def BatchGenerator.getItem (bg : BatchGenerator) (idx : ℕ) :
    Option (BatchOut × BatchGenerator) :=
  if ∀ i, i < bg.config.batch_size →
      (bg.config.batch_size * idx + i < bg.annotations.items.length ∧
        imgShape (bg.processOne
            (bg.annotations.items.getD (bg.config.batch_size * idx + i) dfltAnnItem)).1 =
          (bg.config.input_size, bg.config.input_size, 3)) then
    some
      ({ x_batch := fun i =>
           if i < bg.config.batch_size then
             assignSlot bg.config.input_size
               (bg.processOne
                 (bg.annotations.items.getD (bg.config.batch_size * idx + i) dfltAnnItem)).1
           else zeroImg bg.config.input_size,
         b_batch := fun i =>
           if i < bg.config.batch_size then
             (bg.processOne
               (bg.annotations.items.getD (bg.config.batch_size * idx + i) dfltAnnItem)).2.2
           else zeroB,
         y_batch := fun i =>
           if i < bg.config.batch_size then
             (bg.processOne
               (bg.annotations.items.getD (bg.config.batch_size * idx + i) dfltAnnItem)).2.1
           else zeroY },
       { bg with counter := bg.counter + 1 })
  else none

/-- `BatchGenerator.on_epoch_end` (src/yolo/batch_gen.py:186-188):
`self.annotations.shuffle()` replaces the annotation ordering (the shuffled
result is passed explicitly here, making the ambient RNG of the missing
`yolo.annotation` module an explicit argument) and the batch counter is
reset to 0. -/
def BatchGenerator.on_epoch_end (bg : BatchGenerator) (shuffled : Annotations) :
    BatchGenerator :=
  { bg with annotations := shuffled, counter := 0 }

/-! ## Claims C7, C8, C9 -/

/-- A one-class, one-anchor configuration for concrete batch instances. -/
def cfgEx : GeneratorConfig :=
  { input_size := 8, grid_size := 2, labels := ["cat"], batch_size := 1,
    max_box_per_image := 2, anchors := [1, 1] }

/-- Modelled from the spec: a well-behaved image loader collaborator that
returns an image of exactly the requested target size with the boxes
unchanged (§6). -/
def imreadEx : String → List BoundBox → ℕ → ℕ → Bool → Img × List BoundBox :=
  fun _ bx w h _ => (⟨w, h, 3, fun _ _ _ => 0⟩, bx)

/-- A generator whose single annotation group holds three images while
`batch_size` is 1, separating group count from image count / batch size. -/
def bgEx7 : BatchGenerator :=
  { annotations := ⟨[[⟨"a", [], []⟩, ⟨"b", [], []⟩, ⟨"c", [], []⟩]]⟩,
    config := cfgEx, jitter := false, norm := id, imread := imreadEx, counter := 0 }

/-- A generator whose single group holds exactly `batch_size = 1` image. -/
def bgEx8 : BatchGenerator :=
  { annotations := ⟨[[⟨"a", [], []⟩]]⟩,
    config := cfgEx, jitter := false, norm := id, imread := imreadEx, counter := 0 }

/-- Claim C7: `BatchGenerator.__len__` returns the number of annotation
groups (`len(self.annotations._components)`), and this is not in general
the number of images divided by `batch_size`: `bgEx7` has one group of
three images at batch size 1, so the length is 1 while
`images / batch_size = 3`. -/
theorem len_counts_groups :
    (∀ bg : BatchGenerator, bg.len = bg.annotations._components.length) ∧
      bgEx7.len ≠ bgEx7.annotations.items.length / bgEx7.batch_size :=
  ⟨fun _ => rfl, by decide⟩

/-- Summing the lengths of groups that all have length `k`. -/
theorem sum_const_lengths {α : Type} (k : ℕ) :
    ∀ l : List (List α), (∀ g ∈ l, g.length = k) →
      (l.map List.length).sum = l.length * k := by
  intro l
  induction l with
  | nil => intro _; simp
  | cons g t ih =>
    intro h
    have hg : g.length = k := h g (List.mem_cons_self g t)
    have ht := ih fun g' hg' => h g' (List.mem_cons_of_mem g hg')
    simp only [List.map_cons, List.sum_cons, List.length_cons, hg, ht]
    ring

/-- Claim C8: for every batch index `idx < length()`, a batch fetch on an
annotation source with `batch_size` images per group and shape-respecting
loader and normalization collaborators succeeds (`some`, no raise); every
image slot of the returned batch has shape
`(input_size, input_size, 3)`, and slot `j` is built from the annotation
at global index `batch_size * idx + j`. -/
theorem getItem_safe (bg : BatchGenerator) (idx : ℕ)
    (hread : ∀ f bx w h j, imgShape (bg.imread f bx w h j).1 = (w, h, 3))
    (hnorm : ∀ im, imgShape (bg.norm im) = imgShape im)
    (hgrp : ∀ g ∈ bg.annotations._components, g.length = bg.batch_size)
    (hidx : idx < bg.len) :
    ∃ out : BatchOut, ∃ bg' : BatchGenerator,
      bg.getItem idx = some (out, bg') ∧
      ∀ j, j < bg.batch_size →
        imgShape (out.x_batch j) = (bg.config.input_size, bg.config.input_size, 3) ∧
        out.x_batch j = assignSlot bg.config.input_size
          (bg.processOne
            (bg.annotations.items.getD (bg.batch_size * idx + j) dfltAnnItem)).1 ∧
        out.y_batch j = (bg.processOne
          (bg.annotations.items.getD (bg.batch_size * idx + j) dfltAnnItem)).2.1 ∧
        out.b_batch j = (bg.processOne
          (bg.annotations.items.getD (bg.batch_size * idx + j) dfltAnnItem)).2.2 := by
  have hcount : bg.annotations.items.length = bg.len * bg.batch_size := by
    rw [Annotations.items, List.length_flatten]
    exact sum_const_lengths bg.batch_size bg.annotations._components hgrp
  have hshape : ∀ item : AnnItem, imgShape (bg.processOne item).1 =
      (bg.config.input_size, bg.config.input_size, 3) := by
    intro item
    show imgShape (bg.norm (bg.imread item.fname item.boxes bg.config.input_size
      bg.config.input_size bg.jitter).1) = _
    rw [hnorm]
    exact hread _ _ _ _ _
  have hguard : ∀ i, i < bg.config.batch_size →
      (bg.config.batch_size * idx + i < bg.annotations.items.length ∧
        imgShape (bg.processOne
            (bg.annotations.items.getD (bg.config.batch_size * idx + i) dfltAnnItem)).1 =
          (bg.config.input_size, bg.config.input_size, 3)) := by
    intro i hi
    refine ⟨?_, hshape _⟩
    rw [hcount]
    have h1 : bg.config.batch_size * idx + i < bg.config.batch_size * (idx + 1) := by
      rw [Nat.mul_succ]
      exact Nat.add_lt_add_left hi _
    have h2 : bg.config.batch_size * (idx + 1) ≤ bg.config.batch_size * bg.len :=
      Nat.mul_le_mul_left _ hidx
    calc bg.config.batch_size * idx + i < bg.config.batch_size * (idx + 1) := h1
      _ ≤ bg.config.batch_size * bg.len := h2
      _ = bg.len * bg.batch_size := Nat.mul_comm _ _
  rw [BatchGenerator.getItem, if_pos hguard]
  refine ⟨_, _, rfl, ?_⟩
  intro j hj
  have hj' : j < bg.config.batch_size := hj
  exact ⟨by simp only [if_pos hj']; rfl, by simp only [if_pos hj']; rfl,
    by simp only [if_pos hj']; rfl, by simp only [if_pos hj']; rfl⟩

/-- Witness for C8 on the concrete generator `bgEx8` at batch index 0. -/
theorem getItem_safe_witness :
    (0 : ℕ) < bgEx8.len ∧
      (∃ out : BatchOut, ∃ bg' : BatchGenerator,
        bgEx8.getItem 0 = some (out, bg') ∧
        ∀ j, j < bgEx8.batch_size →
          imgShape (out.x_batch j) =
            (bgEx8.config.input_size, bgEx8.config.input_size, 3) ∧
          out.x_batch j = assignSlot bgEx8.config.input_size
            (bgEx8.processOne
              (bgEx8.annotations.items.getD (bgEx8.batch_size * 0 + j) dfltAnnItem)).1 ∧
          out.y_batch j = (bgEx8.processOne
            (bgEx8.annotations.items.getD (bgEx8.batch_size * 0 + j) dfltAnnItem)).2.1 ∧
          out.b_batch j = (bgEx8.processOne
            (bgEx8.annotations.items.getD (bgEx8.batch_size * 0 + j) dfltAnnItem)).2.2) :=
  ⟨by decide,
   getItem_safe bgEx8 0 (fun _ _ _ _ _ => rfl) (fun _ => rfl)
     (by
       intro g hg
       rw [show bgEx8.annotations._components = [[⟨"a", [], []⟩]] from rfl] at hg
       rw [List.mem_singleton] at hg
       subst hg
       rfl)
     (by decide)⟩

/-- Claim C9 (amended): a batch fetch leaves the annotation ordering and
configuration unchanged but increments the generator's internal batch
counter by one (src/yolo/batch_gen.py:183); the end-of-epoch hook replaces
the annotation ordering with the shuffled one and resets the counter
to 0. -/
theorem getItem_effects (bg : BatchGenerator) (idx : ℕ) :
    ((bg.getItem idx).map fun r => r.2.annotations) =
        ((bg.getItem idx).map fun _ => bg.annotations) ∧
      ((bg.getItem idx).map fun r => r.2.counter) =
        ((bg.getItem idx).map fun _ => bg.counter + 1) ∧
      ((bg.getItem idx).map fun r => r.2.config) =
        ((bg.getItem idx).map fun _ => bg.config) ∧
      ∀ shuffled : Annotations, (bg.on_epoch_end shuffled).counter = 0 ∧
        (bg.on_epoch_end shuffled).annotations = shuffled := by
  refine ⟨?_, ?_, ?_, fun s => ⟨rfl, rfl⟩⟩ <;>
    · rw [BatchGenerator.getItem]
      split <;> rfl

/-- Claim C9, counterexample: a batch fetch does not leave the generator's
state unchanged — on `bgEx8` (counter 0) the returned generator has counter
1, so the fetch is not free of effects on the generator itself. -/
theorem getItem_mutates_counter :
    ((bgEx8.getItem 0).map fun r => r.2.counter) ≠ some bgEx8.counter := by
  decide

/-! ## Decoder and YOLO facade (claim C10; src/yolo/frontend.py) -/

/-- One image's raw network output tensor of shape
`(grid_size, grid_size, nb_anchors, 4+1+nb_classes)` (§4.4), embedded as a
total function `(row, col, anchor, channel) → ℚ`. -/
def NetOut : Type := ℕ → ℕ → ℕ → ℕ → ℚ

/-- A decoded detection: pixel-space corner box, class index and
confidence score. -/
structure Detection where
  box : BoundBox
  classIdx : ℕ
  score : ℚ
deriving Repr, DecidableEq

/-- Modelled from the spec: `YoloDecoder` from the missing module
`yolo.decoder` (§4.4).  The numeric activation transforms (sigmoid /
softmax for scores, the exponential for box sizes) are external
collaborator details that must map raw scores into `[0,1]` (§4.4 step 1),
so they are explicit function fields here: `actO` for scalar activations,
`classT` for the class-score vector transform and `expT` for the size
transform. -/
structure YoloDecoder where
  anchors : List ℚ
  input_size : ℚ
  grid_size : ℕ
  nb_classes : ℕ
  conf_threshold : ℚ
  nms_threshold : ℚ
  actO : ℚ → ℚ
  classT : List ℚ → List ℚ
  expT : ℚ → ℚ

/-- Number of anchors encoded by the flat width,height anchor list. -/
def YoloDecoder.nbAnchors (d : YoloDecoder) : ℕ := d.anchors.length / 2

/-- Width prior of anchor `a`. -/
def YoloDecoder.anchorW (d : YoloDecoder) (a : ℕ) : ℚ := d.anchors.getD (2 * a) 0

/-- Height prior of anchor `a`. -/
def YoloDecoder.anchorH (d : YoloDecoder) (a : ℕ) : ℚ := d.anchors.getD (2 * a + 1) 0

/-- The raw class-score vector of one cell-anchor entry (channels `5..`). -/
def YoloDecoder.classRaw (d : YoloDecoder) (net : NetOut) (row col a : ℕ) : List ℚ :=
  (List.range d.nb_classes).map fun c => net row col a (5 + c)

/-- Decoded per-class confidence of one entry: activated objectness times
the transformed class probability (§4.4 step 2). -/
def YoloDecoder.confAt (d : YoloDecoder) (net : NetOut) (row col a c : ℕ) : ℚ :=
  d.actO (net row col a 4) * (d.classT (d.classRaw net row col a)).getD c 0

/-- Decoded pixel-space corner box of one entry (§4.4 step 3): grid-relative
centroid `(col + act(tx), row + act(ty))` with anchor-scaled sizes, scaled
back to pixel space by `input_size / grid_size` and converted to corners. -/
def YoloDecoder.boxAt (d : YoloDecoder) (net : NetOut) (row col a : ℕ) : BoundBox :=
  let cx := ((col : ℚ) + d.actO (net row col a 0)) * d.input_size / d.grid_size
  let cy := ((row : ℚ) + d.actO (net row col a 1)) * d.input_size / d.grid_size
  let w := d.anchorW a * d.expT (net row col a 2) * d.input_size / d.grid_size
  let h := d.anchorH a * d.expT (net row col a 3) * d.input_size / d.grid_size
  ⟨cx - w / 2, cy - h / 2, cx + w / 2, cy + h / 2⟩

/-- All entries surviving the confidence threshold (§4.4 step 2): one
candidate per grid cell, anchor and class whose confidence exceeds the
threshold. -/
def YoloDecoder.candidates (d : YoloDecoder) (net : NetOut) : List Detection :=
  (List.range d.grid_size).flatMap fun row =>
    (List.range d.grid_size).flatMap fun col =>
      (List.range d.nbAnchors).flatMap fun a =>
        (List.range d.nb_classes).filterMap fun c =>
          if d.conf_threshold < d.confAt net row col a c then
            some ⟨d.boxAt net row col a, c, d.confAt net row col a c⟩
          else none

/-- Insertion step of the confidence-descending sort (§4.4 step 4). -/
def insertByScore (dtc : Detection) : List Detection → List Detection
  | [] => [dtc]
  | x :: xs => if x.score < dtc.score then dtc :: x :: xs else x :: insertByScore dtc xs

/-- Sort detections by confidence, descending (§4.4 step 4). -/
def sortByScore (l : List Detection) : List Detection := l.foldr insertByScore []

/-- Greedy per-class non-max suppression (§4.4 step 4): keep a detection
only if its IoU against every previously kept detection of the same class
is below the NMS threshold. -/
def nmsLoop (thr : ℚ) : List Detection → List Detection → List Detection
  | kept, [] => kept.reverse
  | kept, dtc :: rest =>
      if ∀ k ∈ kept, k.classIdx ≠ dtc.classIdx ∨ bbox_iou k.box dtc.box < thr then
        nmsLoop thr (dtc :: kept) rest
      else nmsLoop thr kept rest

/-- Modelled from the spec: `YoloDecoder.run` (§4.4): threshold, sort,
apply NMS, return the survivors. -/
def YoloDecoder.run (d : YoloDecoder) (net : NetOut) : List Detection :=
  nmsLoop d.nms_threshold [] (sortByScore (d.candidates net))

/-- `YOLO` facade state (src/yolo/frontend.py:11-30): the network
collaborator's `forward` and the decoder. -/
structure YOLO where
  forward : Img → NetOut
  decoder : YoloDecoder

/-- `YOLO.predict` (src/yolo/frontend.py:35-45): forward the image through
the network and decode the raw output into boxes. -/
def YOLO.predict (y : YOLO) (image : Img) : List Detection :=
  y.decoder.run (y.forward image)

/-- Claim C10: if no cell-anchor entry's decoded confidence (objectness
times class probability) exceeds the confidence threshold, the decoder
returns an empty detection list — and so does `YOLO.predict` on any image
whose network output is that tensor; no error is raised (`run` is total). -/
theorem decoder_empty_when_below_threshold (d : YoloDecoder) (net : NetOut)
    (hlow : ∀ row, row < d.grid_size → ∀ col, col < d.grid_size →
      ∀ a, a < d.nbAnchors → ∀ c, c < d.nb_classes →
        d.confAt net row col a c ≤ d.conf_threshold) :
    d.run net = [] ∧
      ∀ im : Img, YOLO.predict { forward := fun _ => net, decoder := d } im = [] := by
  have hcand : d.candidates net = [] := by
    rw [YoloDecoder.candidates, List.flatMap_eq_nil_iff]
    intro row hrowm
    rw [List.flatMap_eq_nil_iff]
    intro col hcolm
    rw [List.flatMap_eq_nil_iff]
    intro a ham
    rw [List.filterMap_eq_nil_iff]
    intro c hcm
    exact if_neg (not_lt.mpr (hlow row (List.mem_range.mp hrowm) col
      (List.mem_range.mp hcolm) a (List.mem_range.mp ham) c (List.mem_range.mp hcm)))
  have hrun : d.run net = [] := by
    rw [YoloDecoder.run, hcand]
    rfl
  exact ⟨hrun, fun _ => hrun⟩

/-- A concrete decoder: one `1×1` anchor, one class, threshold `1/2`, with
collaborator transforms sending every raw objectness score to 0. -/
def dEx : YoloDecoder :=
  { anchors := [1, 1], input_size := 8, grid_size := 2, nb_classes := 1,
    conf_threshold := 1/2, nms_threshold := 3/10,
    actO := fun _ => 0, classT := id, expT := fun _ => 1 }

/-- The all-zero raw output tensor. -/
def zeroNet : NetOut := fun _ _ _ _ => 0

/-- Witness for C10: on the all-zero tensor every decoded confidence is 0,
below the threshold `1/2`, and the decoder returns the empty list. -/
theorem decoder_empty_witness :
    (∀ row, row < dEx.grid_size → ∀ col, col < dEx.grid_size →
      ∀ a, a < dEx.nbAnchors → ∀ c, c < dEx.nb_classes →
        dEx.confAt zeroNet row col a c ≤ dEx.conf_threshold) ∧
      (dEx.run zeroNet = [] ∧
        ∀ im : Img, YOLO.predict { forward := fun _ => zeroNet, decoder := dEx } im = []) :=
  have hlow : ∀ row, row < dEx.grid_size → ∀ col, col < dEx.grid_size →
      ∀ a, a < dEx.nbAnchors → ∀ c, c < dEx.nb_classes →
        dEx.confAt zeroNet row col a c ≤ dEx.conf_threshold := by
    intro row _ col _ a _ c _
    show (0 : ℚ) * _ ≤ 1 / 2
    rw [zero_mul]
    norm_num
  ⟨hlow, decoder_empty_when_below_threshold dEx zeroNet hlow⟩

end YoloSpec
